import Mathlib

/-!
Verification of the normalization, deduplication, snapshot and
change-detection logic of the ai-model-retirements-rss repository.

The Python functions of the five scraper scripts (`scrape.py`,
`scrape_claude_retirements.py`, `scrape_aws_retirements.py`,
`scrape_openai_retirements.py`, `scrape_ms_retirements.py`) are shallowly
embedded as executable Lean definitions:

* text is `String` / `List Char`; the character classes `\d`, `\s`, `\w`,
  `[A-Za-z]` of the Python regexes are modelled over ASCII (the scraped
  tables are ASCII);
* a calendar date is encoded as the natural number `y * 10000 + m * 100 + d`;
  every date built by the parsers below has `m ≤ 12` and `d ≤ 31`, so the
  numeric order on codes coincides with Python `datetime.date` ordering,
  and `strftime("%Y-%m-%d")` is the zero-padded rendering of the code;
* Python `dict`s are association lists with insert-or-overwrite-in-place,
  which matches the insertion-order semantics of `dict`;
* Python functions that can raise are embedded with `Option` / `Except`
  results (`none` / `.error` marks the raising executions).
-/

/-! ### Character classes and digit arithmetic -/

/-- ASCII decimal digit, the `\d` of the Python regexes involved. -/
def pyIsDigit (c : Char) : Bool := '0' ≤ c && c ≤ '9'

/-- ASCII whitespace, the `\s` of the Python regexes involved. -/
def pyIsSpace (c : Char) : Bool :=
  c = ' ' || c = '\t' || c = '\n' || c = '\r' || c = '\x0b' || c = '\x0c'

/-- `[A-Za-z]`. -/
def isAsciiLetter (c : Char) : Bool := ('A' ≤ c && c ≤ 'Z') || ('a' ≤ c && c ≤ 'z')

/-- Word character for the `\b` boundaries of `ISO_DATE_RE`. -/
def pyIsWordChar (c : Char) : Bool := pyIsDigit c || isAsciiLetter c || c = '_'

def digitVal (c : Char) : Nat := c.toNat - 48

/-- Value of a digit string, `int(...)` on a run of ASCII digits. -/
def natOfDigits (cs : List Char) : Nat := cs.foldl (fun a c => 10 * a + digitVal c) 0

/-! ### Calendar dates (`datetime.date` validity and rendering) -/

def isLeapYear (y : Nat) : Bool := y % 4 = 0 && (y % 100 ≠ 0 || y % 400 = 0)

def daysInMonth (y m : Nat) : Nat :=
  if m = 2 then (if isLeapYear y then 29 else 28)
  else if m = 4 || m = 6 || m = 9 || m = 11 then 30
  else 31

/-- `datetime.date` constructor validity: year 1..9999, month 1..12, day in month. -/
def validYmd (y m d : Nat) : Bool :=
  1 ≤ y && y ≤ 9999 && 1 ≤ m && m ≤ 12 && 1 ≤ d && d ≤ daysInMonth y m

def dateCode (y m d : Nat) : Nat := y * 10000 + m * 100 + d

/-- Validated date construction; `none` is the `ValueError` of `datetime`. -/
def mkDate? (y m d : Nat) : Option Nat :=
  if validYmd y m d then some (dateCode y m d) else none

def digitChar (n : Nat) : Char := Char.ofNat (48 + n % 10)

def pad2 (n : Nat) : List Char := [digitChar (n / 10), digitChar n]

def pad4 (n : Nat) : List Char :=
  [digitChar (n / 1000), digitChar (n / 100), digitChar (n / 10), digitChar n]

/-- `strftime("%Y-%m-%d")` on a date code (zero padded). -/
def formatDateCode (code : Nat) : String :=
  String.mk (pad4 (code / 10000) ++ '-' :: pad2 (code % 10000 / 100) ++ '-' :: pad2 (code % 100))

/-! ### `datetime.strptime(s, "%Y-%m-%d")`

strptime requires exactly four year digits, one or two month digits whose
value is 1..12, one or two day digits whose value is 1..31, the whole string
consumed, and then validates the day against the month. -/

def parseDayTail (y m : Nat) : List Char → Option Nat
  | [g, h] => if pyIsDigit g && pyIsDigit h then mkDate? y m (natOfDigits [g, h]) else none
  | [g] => if pyIsDigit g then mkDate? y m (natOfDigits [g]) else none
  | _ => none

def parseMonthTail (y : Nat) : List Char → Option Nat
  | e :: f :: '-' :: rest2 =>
    if pyIsDigit e && pyIsDigit f then parseDayTail y (natOfDigits [e, f]) rest2 else none
  | e :: '-' :: rest2 =>
    if pyIsDigit e then parseDayTail y (natOfDigits [e]) rest2 else none
  | _ => none

def parseYmdChars : List Char → Option Nat
  | a :: b :: c :: d :: '-' :: rest =>
    if [a, b, c, d].all pyIsDigit then parseMonthTail (natOfDigits [a, b, c, d]) rest else none
  | _ => none

/-- `datetime.strptime(s, "%Y-%m-%d").date()` as a date code. -/
def parseDateYmd (s : String) : Option Nat := parseYmdChars s.data

/-! ### `ISO_DATE_RE.findall`: `\b(\d{4}-\d{2}-\d{2})\b`, all non-overlapping
matches left to right. -/

/-- Does a `\d{4}-\d{2}-\d{2}\b` match start at this position? -/
def isoShape : List Char → Bool
  | a :: b :: c :: d :: '-' :: e :: f :: '-' :: g :: h :: rest =>
    [a, b, c, d, e, f, g, h].all pyIsDigit &&
      (match rest with | [] => true | x :: _ => !pyIsWordChar x)
  | _ => false

/-- Scan for all matches one character at a time; `prevW` tells whether the
previous character is a word character (for the leading `\b`), and `skip`
counts positions still covered by the previous match (`findall` resumes
after a match, non-overlapping). -/
def isoScan (skip : Nat) (prevW : Bool) (cs : List Char) : List (List Char) :=
  match cs with
  | [] => []
  | c :: rest =>
    match skip with
    | Nat.succ k => isoScan k (pyIsWordChar c) rest
    | 0 =>
      if !prevW && isoShape (c :: rest) then
        (c :: rest).take 10 :: isoScan 9 (pyIsWordChar c) rest
      else isoScan 0 (pyIsWordChar c) rest

def isoFindAll (prevW : Bool) (cs : List Char) : List (List Char) := isoScan 0 prevW cs

/-! ### `CLAUDE_DATE_RE.search`: `([A-Za-z]+)\s+(\d{1,2}),\s+(\d{4})`.

`re.search` returns the leftmost match.  At a fixed start, the greedy
`[A-Za-z]+`, `\s+` and `\d{1,2}` runs are maximal munches (the adjacent
classes are disjoint, so backtracking can never shorten them into a match);
`\d{1,2}` can only match when the whole digit run has length 1 or 2 and is
followed by the comma; `(\d{4})` takes the first four of at least four
digits. -/

def claudeTry (cs : List Char) : Option (List Char × List Char × List Char) :=
  let p1 := cs.span isAsciiLetter
  if p1.1.isEmpty then none else
  let p2 := p1.2.span pyIsSpace
  if p2.1.isEmpty then none else
  let p3 := p2.2.span pyIsDigit
  if p3.1.length = 0 || 2 < p3.1.length then none else
  match p3.2 with
  | ',' :: r4 =>
    let p5 := r4.span pyIsSpace
    if p5.1.isEmpty then none else
    let y4 := p5.2.take 4
    if y4.length = 4 && y4.all pyIsDigit then some (p1.1, p3.1, y4) else none
  | _ => none

/-- Leftmost match of `CLAUDE_DATE_RE`, as (month word, day digits, year digits). -/
def claudeSearch : List Char → Option (List Char × List Char × List Char)
  | [] => none
  | c :: rest =>
    match claudeTry (c :: rest) with
    | some g => some g
    | none => claudeSearch rest

/-- `%B` of `strptime`: full English month name, case-insensitively. -/
def monthNumber (name : List Char) : Option Nat :=
  let s := String.mk (name.map Char.toLower)
  if s = "january" then some 1 else if s = "february" then some 2
  else if s = "march" then some 3 else if s = "april" then some 4
  else if s = "may" then some 5 else if s = "june" then some 6
  else if s = "july" then some 7 else if s = "august" then some 8
  else if s = "september" then some 9 else if s = "october" then some 10
  else if s = "november" then some 11 else if s = "december" then some 12
  else none

/-- `datetime.strptime(f"{month} {day} {year}", "%B %d %Y").date()` on the
three captured groups; `none` is the caught/raised `ValueError`. -/
def claudeDateOf (g : List Char × List Char × List Char) : Option Nat :=
  match monthNumber g.1 with
  | none => none
  | some m => mkDate? (natOfDigits g.2.2) m (natOfDigits g.2.1)

/-! ### `AWS_DATE_RE.search`: `(\d{1,2})/(\d{1,2})/(\d{4})`. -/

def awsTry (cs : List Char) : Option (List Char × List Char × List Char) :=
  let p1 := cs.span pyIsDigit
  if p1.1.length = 0 || 2 < p1.1.length then none else
  match p1.2 with
  | '/' :: r2 =>
    let p2 := r2.span pyIsDigit
    if p2.1.length = 0 || 2 < p2.1.length then none else
    match p2.2 with
    | '/' :: r4 =>
      let y4 := r4.take 4
      if y4.length = 4 && y4.all pyIsDigit then some (p1.1, p2.1, y4) else none
    | _ => none
  | _ => none

/-- Leftmost match of `AWS_DATE_RE`, as (month digits, day digits, year digits). -/
def awsSearch : List Char → Option (List Char × List Char × List Char)
  | [] => none
  | c :: rest =>
    match awsTry (c :: rest) with
    | some g => some g
    | none => awsSearch rest

/-- `datetime(int(year), int(month), int(day)).date()`; `none` is the caught
`ValueError`. -/
def awsDateOf (g : List Char × List Char × List Char) : Option Nat :=
  mkDate? (natOfDigits g.2.2) (natOfDigits g.1) (natOfDigits g.2.1)

/-! ### `normalize_date_from_text` (scrape.py) -/

def optToList : Option Nat → List Nat
  | none => []
  | some d => [d]

/-- The `dates` list `normalize_date_from_text` accumulates: every parseable
ISO match, then the first long-form match if it parses, then the first
slash-form match if it parses (source order). -/
def candidateDates (t : String) : List Nat :=
  (isoFindAll false t.data).filterMap parseYmdChars
    ++ optToList ((claudeSearch t.data).bind claudeDateOf)
    ++ optToList ((awsSearch t.data).bind awsDateOf)

/-- `min` of a Python list (empty list has no minimum). -/
def listMin : List Nat → Option Nat
  | [] => none
  | d :: ds => some (ds.foldl min d)

/-- `normalize_date_from_text` from `scrape.py` (`None` input and `None`
result are `none`). -/
def normalize_date_from_text : Option String → Option String
  | none => none
  | some t =>
    if t = "" then none
    else
      match listMin (candidateDates t) with
      | none => none
      | some d => some (formatDateCode d)

/-- `extract_earliest_date` from `scrape_openai_retirements.py` (ISO matches
only). -/
def extract_earliest_date (t : String) : Option String :=
  match listMin ((isoFindAll false t.data).filterMap parseYmdChars) with
  | none => none
  | some d => some (formatDateCode d)

/-! ### `normalize_model_name` (both variants) -/

/-- Does `DATE_SUFFIX_RE` (`-\d{8}$`) match, i.e. does the string end in a
hyphen followed by exactly eight digits? -/
def hasDateSuffix (cs : List Char) : Bool :=
  let r := cs.reverse
  (r.take 8).length = 8 && (r.take 8).all pyIsDigit &&
    (match r.drop 8 with | '-' :: _ => true | _ => false)

/-- `DATE_SUFFIX_RE.sub("", cs)`: remove the trailing date suffix if present. -/
def stripDateSuffix (cs : List Char) : List Char :=
  if hasDateSuffix cs then (cs.reverse.drop 9).reverse else cs

/-- Python `str.strip()` (whitespace from both ends). -/
def pyStrip (cs : List Char) : List Char :=
  ((cs.dropWhile pyIsSpace).reverse.dropWhile pyIsSpace).reverse

/-- `normalize_model_name` from `scrape.py`: falsy input returned unchanged,
otherwise `DATE_SUFFIX_RE.sub("", name.strip())`. -/
def normalize_model_name : Option String → Option String
  | none => none
  | some s => if s = "" then some "" else some (String.mk (stripDateSuffix (pyStrip s.data)))

/-- `normalize_model_name` from `scrape_claude_retirements.py` (no `strip()`). -/
def claude_normalize_model_name : Option String → Option String
  | none => none
  | some s => if s = "" then some "" else some (String.mk (stripDateSuffix s.data))

/-! ### Per-source date normalizers -/

/-- `normalize_retirement_date` from `scrape_claude_retirements.py`.  The two
uncaught `ValueError`s (no regex match; `strptime` failure) are embedded as
`Except.error`. -/
def claude_normalize_retirement_date : Option String → Except String (Option String)
  | none => .ok none
  | some s =>
    if s = "" then .ok none
    else
      match claudeSearch s.data with
      | none => .error ("Unrecognized date format: " ++ s)
      | some g =>
        match claudeDateOf g with
        | none => .error "ValueError from strptime"
        | some d => .ok (some (formatDateCode d))

/-- `normalize_retirement_date` from `scrape_aws_retirements.py` (total: the
`ValueError` of `datetime` is caught and becomes `None`). -/
def aws_normalize_retirement_date : Option String → Option String
  | none => none
  | some s =>
    if s = "" then none
    else
      match awsSearch s.data with
      | none => none
      | some g =>
        match awsDateOf g with
        | none => none
        | some d => some (formatDateCode d)

/-! ### Python `dict` as an association list

Insertion keeps first-seen key order; updating an existing key overwrites the
value in place, exactly like `d[k] = v`; `list(d.values())` is `map Prod.snd`. -/

def dictGet? {K V : Type} [DecidableEq K] (k : K) : List (K × V) → Option V
  | [] => none
  | (k1, v) :: rest => if k = k1 then some v else dictGet? k rest

def dictInsert {K V : Type} [DecidableEq K] (k : K) (v : V) : List (K × V) → List (K × V)
  | [] => [(k, v)]
  | (k1, v1) :: rest => if k = k1 then (k, v) :: rest else (k1, v1) :: dictInsert k v rest

/-! ### The three deduplicators -/

/-- A normalized row of the unified `scrape.py` pipeline. -/
structure Row4 where
  source : String
  model_name : String
  retirement_date : String
  recommended_replacement : String
  deriving DecidableEq, Repr

/-- The loop of `deduplicate_rows`; `none` models the uncaught `ValueError`
when a `retirement_date` does not `strptime`-parse. -/
def dedupRowsGo (best : List (String × Row4)) : List Row4 → Option (List (String × Row4))
  | [] => some best
  | row :: rest =>
    match parseDateYmd row.retirement_date with
    | none => none
    | some d =>
      match dictGet? row.model_name best with
      | none => dedupRowsGo (dictInsert row.model_name row best) rest
      | some ex =>
        match parseDateYmd ex.retirement_date with
        | none => none
        | some ed =>
          if d < ed then dedupRowsGo (dictInsert row.model_name row best) rest
          else if d = ed ∧ row.recommended_replacement ≠ "" ∧ ex.recommended_replacement = "" then
            dedupRowsGo (dictInsert row.model_name row best) rest
          else dedupRowsGo best rest

/-- `deduplicate_rows` from `scrape.py`. -/
def deduplicate_rows (rows : List Row4) : Option (List Row4) :=
  (dedupRowsGo [] rows).map (List.map Prod.snd)

/-- A row of `scrape_claude_retirements.py`. -/
structure RowC where
  retirement_date : String
  deprecated_model_name : String
  recommended_replacement : String
  deriving DecidableEq, Repr

def dedupClaudeGo (best : List (String × RowC)) : List RowC → List (String × RowC)
  | [] => best
  | row :: rest =>
    match dictGet? row.deprecated_model_name best with
    | none => dedupClaudeGo (dictInsert row.deprecated_model_name row best) rest
    | some ex =>
      if ex.recommended_replacement = "" ∧ row.recommended_replacement ≠ "" then
        dedupClaudeGo (dictInsert row.deprecated_model_name row best) rest
      else dedupClaudeGo best rest

/-- `deduplicate_deprecations` from `scrape_claude_retirements.py`: keeps the
first row unless a later row has a replacement and the kept one does not;
the retirement date is never consulted. -/
def deduplicate_deprecations (rows : List RowC) : List RowC :=
  (dedupClaudeGo [] rows).map Prod.snd

/-- A row of `scrape_openai_retirements.py`. -/
structure Row3 where
  model_name : String
  retirement_date : String
  recommended_replacement : String
  deriving DecidableEq, Repr

def dedupOpenaiGo (best : List (String × Row3)) : List Row3 → Option (List (String × Row3))
  | [] => some best
  | row :: rest =>
    match parseDateYmd row.retirement_date with
    | none => none
    | some d =>
      match dictGet? row.model_name best with
      | none => dedupOpenaiGo (dictInsert row.model_name row best) rest
      | some ex =>
        match parseDateYmd ex.retirement_date with
        | none => none
        | some ed =>
          if d < ed then dedupOpenaiGo (dictInsert row.model_name row best) rest
          else dedupOpenaiGo best rest

/-- `deduplicate_by_earliest_retirement` from `scrape_openai_retirements.py`:
earliest date wins, all ties keep the first-seen row (the replacement column
is never consulted). -/
def deduplicate_by_earliest_retirement (rows : List Row3) : Option (List Row3) :=
  (dedupOpenaiGo [] rows).map (List.map Prod.snd)

/-! ### `scrape_ms_retirements.py`: rows, change detection, snapshot store -/

/-- A parsed row of the Current-models tables.  `parse_table` keys the cells
by the normalized header names; a missing cell reads back as `""` through
`row.get(field, "")`, which the default field values model. -/
structure MsRow where
  type : String
  model : String
  version : String
  lifecycle_status : String
  deprecation_date : String
  retirement_date : String
  replacement_model : String
  deriving DecidableEq, Repr

/-- `row.get(field, "")` on the header-keyed fields. -/
def rowGet (r : MsRow) : String → String
  | "Type" => r.type
  | "Model" => r.model
  | "Version" => r.version
  | "Lifecycle status" => r.lifecycle_status
  | "Deprecation date" => r.deprecation_date
  | "Retirement date" => r.retirement_date
  | "Replacement model" => r.replacement_model
  | _ => ""

/-- `key_for_row`: identity by (Type, Model, Version), as a string tuple. -/
def key_for_row (r : MsRow) : List String := [r.type, r.model, r.version]

/-- The fixed field list of the comparison loop in `compare_snapshots`. -/
def comparableFields : List String :=
  ["Lifecycle status", "Deprecation date", "Retirement date", "Replacement model"]

/-- The `diffs` mapping built inside `compare_snapshots`: each comparable
field whose old and new values differ, with the (old, new) pair, in the
fixed field order of the source loop. -/
def msDiffs (o n : MsRow) : List (String × String × String) :=
  comparableFields.filterMap fun f =>
    if rowGet o f ≠ rowGet n f then some (f, rowGet o f, rowGet n f) else none

/-- A change record appended by `compare_snapshots` (or the synthetic
baseline record `main` substitutes); the human-readable `message` field is
recomputed from the other fields when rendering. -/
inductive MsChange where
  | cnew (key : List String) (row : MsRow)
  | update (key : List String) (oldRow newRow : MsRow) (diffs : List (String × String × String))
  | baseline
  deriving DecidableEq, Repr

/-- The change (if any) one iteration of the `compare_snapshots` loop appends
for one new row. -/
def changeForRow (old : List (List String × MsRow)) (row : MsRow) : Option MsChange :=
  match dictGet? (key_for_row row) old with
  | none => some (.cnew (key_for_row row) row)
  | some orow =>
    if msDiffs orow row = [] then none
    else some (.update (key_for_row row) orow row (msDiffs orow row))

/-- `compare_snapshots`: one pass over the new rows, collecting at most one
change per row against the (unchanging) old snapshot and building the new
snapshot mapping keyed by `key_for_row`. -/
def compare_snapshots (old : List (List String × MsRow)) (rows : List MsRow) :
    List MsChange × List (List String × MsRow) :=
  (rows.filterMap (changeForRow old),
   rows.foldl (fun s r => dictInsert (key_for_row r) r s) [])

/-! #### Snapshot persistence (`save_snapshot` / `load_snapshot`)

`save_snapshot` flattens each key tuple with `"||".join(k)` and dumps the
resulting string-keyed mapping as JSON; `load_snapshot` reads it back and
splits each key with `k.split("||")`.  `json.dump`/`json.load` round-trips a
string-keyed mapping of string-valued rows exactly and in insertion order,
so the embedding works directly with the flattened association list. -/

/-- `"||".join(parts)` on character lists. -/
def joinBars : List (List Char) → List Char
  | [] => []
  | [p] => p
  | p :: q :: rest => p ++ '|' :: '|' :: joinBars (q :: rest)

/-- Python `s.split("||")`: cut at each leftmost non-overlapping occurrence
of `||`; a lone `|` stays in the current part. -/
def splitBars (acc : List Char) : List Char → List (List Char)
  | [] => [acc.reverse]
  | [c] => (c :: acc).reverse :: []
  | c1 :: c2 :: rest =>
    if c1 = '|' ∧ c2 = '|' then acc.reverse :: splitBars [] rest
    else splitBars (c1 :: acc) (c2 :: rest)

def joinKey (k : List String) : String := String.mk (joinBars (k.map String.data))

def splitKey (s : String) : List String := (splitBars [] s.data).map String.mk

/-- `save_snapshot`: the persisted form, a mapping from flattened key to row. -/
def save_snapshot (snap : List (List String × MsRow)) : List (String × MsRow) :=
  snap.foldl (fun acc kv => dictInsert (joinKey kv.1) kv.2 acc) []

/-- `load_snapshot`: the mapping read back, keys split again. -/
def load_snapshot (serial : List (String × MsRow)) : List (List String × MsRow) :=
  serial.foldl (fun acc kv => dictInsert (splitKey kv.1) kv.2 acc) []

/-! #### RSS assembly (`write_rss` of `scrape_ms_retirements.py`) -/

def MS_URL_BASE : String :=
  "https://learn.microsoft.com/en-us/azure/ai-foundry/openai/concepts/model-retirements"

/-- `make_tabs_link` (the `TAB_MAP` lookup with default `text`). -/
def tabFor (ty : String) : String :=
  if ty = "Text" then "text"
  else if ty = "Audio" then "audio"
  else if ty = "Image and video" then "image"
  else if ty = "Embedding" then "embedding"
  else "text"

/-- The key tuple a change is rendered under (the baseline record carries
`("-", "-", "-")` in the source). -/
def changeKey : MsChange → List String
  | .cnew k _ => k
  | .update k _ _ _ => k
  | .baseline => ["-", "-", "-"]

/-- The `guid` string built for a feed item: `type|model|version|` followed
by `str(hash(model + version + str(now.timestamp())))`.  `h` stands for the
process string-hash function (salted per process in Python) and `ts` for
`str(now.timestamp())` of the run. -/
def ms_guid (h : String → Int) (ts : String) (ty mo ve : String) : String :=
  ty ++ "|" ++ mo ++ "|" ++ ve ++ "|" ++ toString (h (mo ++ ve ++ ts))

/-- The `message` f-string of `compare_snapshots` / `main`. -/
def msMessage : MsChange → String
  | .cnew k _ =>
    "New model listed in Current models: [" ++ k.headD "" ++ "] " ++
      k.getD 1 "" ++ " " ++ k.getD 2 ""
  | .update k _ _ ds =>
    "Updated fields for [" ++ k.headD "" ++ "] " ++ k.getD 1 "" ++ " " ++ k.getD 2 "" ++ ": " ++
      String.intercalate ", "
        (ds.map fun t => t.1 ++ ": \x27" ++ t.2.1 ++ "\x27 → \x27" ++ t.2.2 ++ "\x27")
  | .baseline => "Baseline created; snapshot initialized."

/-- The description body of a feed item. -/
def msDescription : MsChange → String
  | .cnew _ _ => "New row detected in Current models table."
  | .update _ _ _ ds =>
    String.intercalate "\n"
      (ds.map fun t => t.1 ++ ": \x27" ++ t.2.1 ++ "\x27 → \x27" ++ t.2.2 ++ "\x27")
  | .baseline => "Initial baseline snapshot created."

structure MsItem where
  title : String
  link : String
  guid : String
  description : String
  deriving DecidableEq, Repr

/-- One `<item>` of the Microsoft feed. -/
def ms_render_item (h : String → Int) (ts : String) (ch : MsChange) : MsItem :=
  let k := changeKey ch
  { title := msMessage ch
    link := MS_URL_BASE ++ "?tabs=" ++ tabFor (k.headD "")
    guid := ms_guid h ts (k.headD "") (k.getD 1 "") (k.getD 2 "")
    description := msDescription ch }

/-- The item list `write_rss` assembles: with no changes the previously
emitted items are carried forward unchanged; otherwise the new change items
come first, followed by the existing items. -/
def ms_write_rss_items (h : String → Int) (ts : String) (changes : List MsChange)
    (existing : List MsItem) : List MsItem :=
  if changes = [] then existing else changes.map (ms_render_item h ts) ++ existing

/-- The change list `main` passes to `write_rss`: when no prior snapshot
existed the whole list is replaced by one synthetic baseline record. -/
def ms_final_changes (old : List (List String × MsRow)) (rows : List MsRow) : List MsChange :=
  if old = [] then [MsChange.baseline] else (compare_snapshots old rows).1

/-- The snapshot `main` saves at the end of a run: the new mapping built by
`compare_snapshots` from this run's rows. -/
def ms_saved_snapshot (old : List (List String × MsRow)) (rows : List MsRow) :
    List (List String × MsRow) :=
  (compare_snapshots old rows).2

/-! ### The `__main__` block of `scrape.py` -/

structure ScrapeItem where
  title : String
  description : String
  guid : String
  deriving DecidableEq, Repr

/-- `write_rss` of `scrape.py`: one `<item>` per row passed in. -/
def scrape_rss_items (rows : List Row4) : List ScrapeItem :=
  rows.map fun r =>
    { title := r.model_name ++ " retirement update"
      description := "Source: " ++ r.source ++ "\nModel: " ++ r.model_name ++
        "\nRetirement date: " ++ r.retirement_date ++
        (if r.recommended_replacement ≠ "" then
          "\nRecommended replacement: " ++ r.recommended_replacement else "")
      guid := r.source ++ "|" ++ r.model_name ++ "|" ++ r.retirement_date }

/-- `load_existing_csv`: the stored rows keyed by `(source, model_name)`. -/
def load_existing_csv (rows : List Row4) : List ((String × String) × Row4) :=
  rows.foldl (fun acc r => dictInsert (r.source, r.model_name) r acc) []

/-- `diff_rows` from `scrape.py`: the new rows that are absent from the
existing mapping or differ on `retirement_date` or `recommended_replacement`. -/
def diff_rows (new_rows : List Row4) (existing : List ((String × String) × Row4)) :
    List Row4 :=
  new_rows.filter fun row =>
    match dictGet? (row.source, row.model_name) existing with
    | none => true
    | some ex =>
      decide (row.retirement_date ≠ ex.retirement_date ∨
        row.recommended_replacement ≠ ex.recommended_replacement)

/-- The three output files of `scrape.py` (contents as row/item lists). -/
structure ScrapeFiles where
  mainCsv : Option (List Row4)
  changesCsv : Option (List Row4)
  rss : Option (List ScrapeItem)
  deriving DecidableEq, Repr

/-- The file writes of the `__main__` block of `scrape.py` for one run over
the already-scraped rows; `none` models the `RuntimeError` raised when
nothing was scraped.  On a first run (no main CSV) all rows are written to
the main CSV and the feed; on later runs only the changes CSV and the feed
are written — the main CSV is left as it was. -/
def scrape_main_run (fs : ScrapeFiles) (all_rows : List Row4) : Option ScrapeFiles :=
  if all_rows = [] then none
  else
    match fs.mainCsv with
    | none =>
      some { mainCsv := some all_rows, changesCsv := fs.changesCsv,
             rss := some (scrape_rss_items all_rows) }
    | some oldRows =>
      let changes := diff_rows all_rows (load_existing_csv oldRows)
      if changes = [] then some fs
      else
        some { mainCsv := some oldRows, changesCsv := some changes,
               rss := some (scrape_rss_items all_rows) }

/-! ### Association-list lemmas -/

theorem mem_dictInsert {K V : Type} [DecidableEq K] (k : K) (v : V) (l : List (K × V))
    (kv : K × V) (h : kv ∈ dictInsert k v l) : kv = (k, v) ∨ kv ∈ l := by
  induction l with
  | nil => simpa [dictInsert] using h
  | cons hd tl ih =>
    obtain ⟨k1, v1⟩ := hd
    rw [dictInsert] at h
    by_cases hk : k = k1
    · rw [if_pos hk] at h
      rcases List.mem_cons.1 h with h | h
      · exact Or.inl h
      · exact Or.inr (List.mem_cons_of_mem _ h)
    · rw [if_neg hk] at h
      rcases List.mem_cons.1 h with h | h
      · exact Or.inr (by simp [h])
      · rcases ih h with h1 | h1
        · exact Or.inl h1
        · exact Or.inr (List.mem_cons_of_mem _ h1)

theorem dictGet?_dictInsert_self {K V : Type} [DecidableEq K] (k : K) (v : V)
    (l : List (K × V)) : dictGet? k (dictInsert k v l) = some v := by
  induction l with
  | nil => simp [dictInsert, dictGet?]
  | cons hd tl ih =>
    obtain ⟨k1, v1⟩ := hd
    rw [dictInsert]
    by_cases hk : k = k1
    · rw [if_pos hk, dictGet?, if_pos rfl]
    · rw [if_neg hk, dictGet?, if_neg hk]
      exact ih

theorem dictGet?_dictInsert_ne {K V : Type} [DecidableEq K] {k k1 : K} (v : V)
    (l : List (K × V)) (h : k ≠ k1) : dictGet? k (dictInsert k1 v l) = dictGet? k l := by
  induction l with
  | nil => simp [dictInsert, dictGet?, h]
  | cons hd tl ih =>
    obtain ⟨k2, v2⟩ := hd
    rw [dictInsert]
    by_cases hk : k1 = k2
    · rw [if_pos hk, dictGet?, dictGet?, if_neg (hk ▸ h), if_neg (hk ▸ h)]
    · rw [if_neg hk, dictGet?, dictGet?]
      by_cases hk2 : k = k2
      · rw [if_pos hk2, if_pos hk2]
      · rw [if_neg hk2, if_neg hk2]
        exact ih

theorem dictGet?_mem {K V : Type} [DecidableEq K] {k : K} {v : V} {l : List (K × V)}
    (h : dictGet? k l = some v) : (k, v) ∈ l := by
  induction l with
  | nil => simp [dictGet?] at h
  | cons hd tl ih =>
    obtain ⟨k1, v1⟩ := hd
    rw [dictGet?] at h
    by_cases hk : k = k1
    · rw [if_pos hk] at h
      cases h
      exact List.mem_cons.2 (Or.inl (by rw [hk]))
    · rw [if_neg hk] at h
      exact List.mem_cons_of_mem _ (ih h)

theorem keys_dictInsert {K V : Type} [DecidableEq K] (k : K) (v : V) (l : List (K × V))
    (k1 : K) : k1 ∈ (dictInsert k v l).map Prod.fst ↔ k1 = k ∨ k1 ∈ l.map Prod.fst := by
  induction l with
  | nil => simp [dictInsert]
  | cons hd tl ih =>
    obtain ⟨k2, v2⟩ := hd
    rw [dictInsert]
    by_cases hk : k = k2
    · rw [if_pos hk]
      subst hk
      simp only [List.map_cons, List.mem_cons]
      tauto
    · rw [if_neg hk]
      simp only [List.map_cons, List.mem_cons, ih]
      tauto

theorem keys_dictInsert_nodup {K V : Type} [DecidableEq K] (k : K) (v : V)
    (l : List (K × V)) (h : (l.map Prod.fst).Nodup) :
    ((dictInsert k v l).map Prod.fst).Nodup := by
  induction l with
  | nil => simp [dictInsert]
  | cons hd tl ih =>
    obtain ⟨k2, v2⟩ := hd
    simp only [List.map_cons, List.nodup_cons] at h
    rw [dictInsert]
    by_cases hk : k = k2
    · rw [if_pos hk]
      subst hk
      simp only [List.map_cons, List.nodup_cons]
      exact ⟨h.1, h.2⟩
    · rw [if_neg hk]
      simp only [List.map_cons, List.nodup_cons]
      refine ⟨fun hmem => ?_, ih h.2⟩
      rcases (keys_dictInsert k v tl k2).1 hmem with h1 | h1
      · exact hk h1.symm
      · exact h.1 h1

theorem dictInsert_of_not_mem {K V : Type} [DecidableEq K] (k : K) (v : V)
    (l : List (K × V)) (h : k ∉ l.map Prod.fst) : dictInsert k v l = l ++ [(k, v)] := by
  induction l with
  | nil => simp [dictInsert]
  | cons hd tl ih =>
    obtain ⟨k2, v2⟩ := hd
    simp only [List.map_cons, List.mem_cons, not_or] at h
    rw [dictInsert, if_neg h.1]
    simp [ih h.2]

/-! ### `min(list)` lemmas -/

theorem foldl_min_le_init (ds : List Nat) : ∀ a : Nat, ds.foldl min a ≤ a := by
  induction ds with
  | nil => intro a; simp
  | cons d ds ih =>
    intro a
    calc ds.foldl min (min a d) ≤ min a d := ih _
    _ ≤ a := min_le_left _ _

theorem foldl_min_le_mem (ds : List Nat) : ∀ a : Nat, ∀ e ∈ ds, ds.foldl min a ≤ e := by
  induction ds with
  | nil => intro a e he; simp at he
  | cons d ds ih =>
    intro a e he
    rcases List.mem_cons.1 he with he | he
    · subst he
      calc ds.foldl min (min a e) ≤ min a e := foldl_min_le_init _ _
      _ ≤ e := min_le_right _ _
    · exact ih _ e he

theorem foldl_min_mem (ds : List Nat) :
    ∀ a : Nat, ds.foldl min a = a ∨ ds.foldl min a ∈ ds := by
  induction ds with
  | nil => intro a; simp
  | cons d ds ih =>
    intro a
    rcases ih (min a d) with h | h
    · rcases Nat.le_total a d with hle | hle
      · left
        simp only [List.foldl_cons]
        rw [h, min_eq_left hle]
      · right
        simp only [List.foldl_cons]
        rw [h, min_eq_right hle]
        exact List.mem_cons_self _ _
    · right
      simp only [List.foldl_cons]
      exact List.mem_cons_of_mem _ h

theorem listMin_mem {l : List Nat} {d : Nat} (h : listMin l = some d) : d ∈ l := by
  cases l with
  | nil => simp [listMin] at h
  | cons a ds =>
    simp only [listMin, Option.some.injEq] at h
    subst h
    rcases foldl_min_mem ds a with h | h
    · simp [h]
    · exact List.mem_cons_of_mem _ h

theorem listMin_le {l : List Nat} {d : Nat} (h : listMin l = some d) : ∀ e ∈ l, d ≤ e := by
  cases l with
  | nil => simp [listMin] at h
  | cons a ds =>
    simp only [listMin, Option.some.injEq] at h
    subst h
    intro e he
    rcases List.mem_cons.1 he with he | he
    · subst he
      exact foldl_min_le_init _ _
    · exact foldl_min_le_mem _ _ _ he

theorem string_mk_data (s : String) : String.mk s.data = s := by
  cases s
  rfl

theorem stripDateSuffix_of_not {cs : List Char} (h : hasDateSuffix cs = false) :
    stripDateSuffix cs = cs := by
  rw [stripDateSuffix, h]
  simp

/-- A string with no trailing date suffix is a fixed point of the Claude
variant of `normalize_model_name`. -/
theorem claude_nmn_fixpoint (t : String) (hns : hasDateSuffix t.data = false) :
    claude_normalize_model_name (some t) = some t := by
  by_cases hne : t = ""
  · rw [hne]
    decide
  · simp only [claude_normalize_model_name]
    rw [if_neg hne, stripDateSuffix_of_not hns, string_mk_data]

/-- A whitespace-trimmed string with no trailing date suffix is a fixed
point of the unified `normalize_model_name`. -/
theorem nmn_fixpoint (t : String) (hns : hasDateSuffix t.data = false)
    (hstrip : pyStrip t.data = t.data) : normalize_model_name (some t) = some t := by
  by_cases hne : t = ""
  · rw [hne]
    decide
  · simp only [normalize_model_name]
    rw [if_neg hne, hstrip, stripDateSuffix_of_not hns, string_mk_data]

theorem mem_map_snd_dictInsert {K V : Type} [DecidableEq K] (k : K) (v : V)
    (l : List (K × V)) (r : V) (h : r ∈ (dictInsert k v l).map Prod.snd) :
    r = v ∨ r ∈ l.map Prod.snd := by
  rcases List.mem_map.1 h with ⟨kv, hkv, hr⟩
  rcases mem_dictInsert k v l kv hkv with h1 | h1
  · left
    rw [← hr, h1]
  · right
    exact List.mem_map.2 ⟨kv, h1, hr⟩

/-! ### Example rows used by concrete evaluations -/

def exOld : Row4 :=
  { source := "u", model_name := "m", retirement_date := "2026-01-01",
    recommended_replacement := "" }

def exNew : Row4 :=
  { source := "u", model_name := "m", retirement_date := "2026-02-01",
    recommended_replacement := "" }

def exA : Row4 :=
  { source := "u", model_name := "a", retirement_date := "2026-01-01",
    recommended_replacement := "" }

def exB : Row4 :=
  { source := "u", model_name := "b", retirement_date := "2026-01-02",
    recommended_replacement := "" }

def exC : Row4 :=
  { source := "u", model_name := "c", retirement_date := "2026-01-03",
    recommended_replacement := "" }

/-! ## Claim theorems -/

/-- C1, counterexample: the input holds two long-form dates; the claim
demands the earlier one (`2025-01-15`), but only the first long-form match
is ever considered, so the function returns `2025-03-01`.  The second
conjunct shows the ignored substring is itself a supported date. -/
theorem c1_counterexample :
    normalize_date_from_text (some "March 1, 2025 or January 15, 2025") = some "2025-03-01" ∧
    normalize_date_from_text (some "January 15, 2025") = some "2025-01-15" := by
  exact ⟨by decide, by decide⟩

/-- C1 (amended): the date normalizer returns the earliest date among its
candidate set — every ISO match, the first long-form match and the first
slash-form match — formatted `YYYY-MM-DD`, and `none` exactly when there is
no candidate; the spec's earliest-wins example with two ISO dates holds. -/
theorem c1_earliest_candidate_date :
    (∀ t : String,
      (normalize_date_from_text (some t) = none ∧ candidateDates t = []) ∨
      ∃ d, d ∈ candidateDates t ∧ (∀ e ∈ candidateDates t, d ≤ e) ∧
        normalize_date_from_text (some t) = some (formatDateCode d)) ∧
    normalize_date_from_text (some "retiring 2025-03-01 or 2025-01-15") = some "2025-01-15" := by
  constructor
  · intro t
    by_cases ht : t = ""
    · left
      subst ht
      exact ⟨rfl, rfl⟩
    · cases hm : listMin (candidateDates t) with
      | none =>
        left
        refine ⟨by simp [normalize_date_from_text, ht, hm], ?_⟩
        cases hc : candidateDates t with
        | nil => rfl
        | cons d ds =>
          rw [hc] at hm
          simp [listMin] at hm
      | some d =>
        right
        exact ⟨d, listMin_mem hm, listMin_le hm,
          by simp [normalize_date_from_text, ht, hm]⟩
  · decide

/-- C2: the Claude-variant date normalizer raises (`Except.error`) on input
matching no grammar, while the unified and AWS normalizers return `none` on
the same input (they are total functions of the embedding, hence never
raise). -/
theorem c2_claude_normalizer_raises :
    claude_normalize_retirement_date (some "not a date") =
      Except.error "Unrecognized date format: not a date" ∧
    normalize_date_from_text (some "not a date") = none ∧
    aws_normalize_retirement_date (some "not a date") = none := by
  exact ⟨rfl, by decide, by decide⟩

/-- C4: a subsequent run of `scrape.py` with a changed retirement date
writes the changes only to the separate changes file; the main CSV — the
set the next run loads — still holds the old rows, not the run's new
canonical set. -/
theorem c4_main_csv_not_replaced :
    scrape_main_run { mainCsv := some [exOld], changesCsv := none, rss := none } [exNew] =
      some { mainCsv := some [exOld], changesCsv := some [exNew],
             rss := some (scrape_rss_items [exNew]) } ∧
    [exOld] ≠ [exNew] := by
  exact ⟨by decide, by decide⟩

/-- C5, counterexample: on a first run (no existing CSV) the unified
`scrape.py` feed gets one item per scraped row — three rows give three feed
entries, not a single baseline entry. -/
theorem c5_counterexample :
    (scrape_main_run { mainCsv := none, changesCsv := none, rss := none }
      [exA, exB, exC]).map (fun fs => fs.rss.map List.length) = some (some 3) := by
  decide

/-- C5 (amended): in the Microsoft variant, whenever the prior snapshot is
empty the change list passed to the feed writer is exactly one synthetic
baseline record — independent of how many rows were scraped — and the feed
(starting empty) gets exactly that one baseline item. -/
theorem c5_ms_first_run_single_baseline (rows : List MsRow) (h : String → Int) (ts : String) :
    ms_final_changes [] rows = [MsChange.baseline] ∧
    ms_write_rss_items h ts (ms_final_changes [] rows) [] =
      [ms_render_item h ts MsChange.baseline] := by
  constructor
  · rfl
  · rfl

/-- C8: the feed-entry identifier varies with the run's wall-clock
timestamp: with the process hash instantiated to string length, the same
logical change rendered at two different timestamps gets two different
`guid`s, so the identifier is not a function of the change's content. -/
theorem c8_guid_depends_on_time :
    ms_guid (fun s => (s.length : Int)) "1700000000.0" "Text" "gpt-4" "0613" ≠
    ms_guid (fun s => (s.length : Int)) "1700000000.25" "Text" "gpt-4" "0613" := by
  decide

/-- C9, counterexample: a name carrying two stacked date suffixes is not a
fixed point after one normalization, for both variants. -/
theorem c9_counterexample :
    claude_normalize_model_name (claude_normalize_model_name (some "a-12345678-12345678")) ≠
      claude_normalize_model_name (some "a-12345678-12345678") ∧
    normalize_model_name (normalize_model_name (some "a-12345678-12345678")) ≠
      normalize_model_name (some "a-12345678-12345678") := by
  exact ⟨by decide, by decide⟩

/-- C9 (amended): both model-name normalizers are idempotent on every input
whose normalized form carries no further `-YYYYMMDD` suffix (and, for the
whitespace-trimming unified variant, no surrounding whitespace); a second
application can only differ by stripping such a leftover suffix. -/
theorem c9_idempotent_unless_stacked_suffix (x : Option String)
    (h1 : ∀ s : String, claude_normalize_model_name x = some s → hasDateSuffix s.data = false)
    (h2 : ∀ s : String, normalize_model_name x = some s →
      hasDateSuffix s.data = false ∧ pyStrip s.data = s.data) :
    claude_normalize_model_name (claude_normalize_model_name x) =
      claude_normalize_model_name x ∧
    normalize_model_name (normalize_model_name x) = normalize_model_name x := by
  constructor
  · cases x with
    | none => rfl
    | some s =>
      by_cases hs : s = ""
      · rw [hs]
        decide
      · have e : claude_normalize_model_name (some s) =
            some (String.mk (stripDateSuffix s.data)) := by
          simp only [claude_normalize_model_name]
          rw [if_neg hs]
        rw [e]
        rw [e] at h1
        exact claude_nmn_fixpoint _ (h1 _ rfl)
  · cases x with
    | none => rfl
    | some s =>
      by_cases hs : s = ""
      · rw [hs]
        decide
      · have e : normalize_model_name (some s) =
            some (String.mk (stripDateSuffix (pyStrip s.data))) := by
          simp only [normalize_model_name]
          rw [if_neg hs]
        rw [e]
        rw [e] at h2
        exact nmn_fixpoint _ (h2 _ rfl).1 (h2 _ rfl).2

/-- C9 witness: the amended idempotence applied to a genuine Claude model
name. -/
theorem c9_amended_witness :
    hasDateSuffix ("claude-3-5-haiku".data) = false ∧
    claude_normalize_model_name (claude_normalize_model_name
      (some "claude-3-5-haiku-20241022")) =
      claude_normalize_model_name (some "claude-3-5-haiku-20241022") ∧
    normalize_model_name (normalize_model_name (some "claude-3-5-haiku-20241022")) =
      normalize_model_name (some "claude-3-5-haiku-20241022") := by
  refine ⟨by decide, ?_⟩
  have h := c9_idempotent_unless_stacked_suffix (some "claude-3-5-haiku-20241022")
    (fun s hs => ?_) (fun s hs => ?_)
  · exact ⟨h.1, h.2⟩
  · have e : claude_normalize_model_name (some "claude-3-5-haiku-20241022") =
        some "claude-3-5-haiku" := by decide
    rw [e] at hs
    cases hs
    decide
  · have e : normalize_model_name (some "claude-3-5-haiku-20241022") =
        some "claude-3-5-haiku" := by decide
    rw [e] at hs
    cases hs
    exact ⟨by decide, by decide⟩

/-! ### C10: deduplicators never merge fields across rows -/

theorem dedupRowsGo_mem : ∀ (rows : List Row4) (best fin : List (String × Row4)),
    dedupRowsGo best rows = some fin →
    ∀ r ∈ fin.map Prod.snd, r ∈ best.map Prod.snd ∨ r ∈ rows := by
  intro rows
  induction rows with
  | nil =>
    intro best fin h r hr
    simp only [dedupRowsGo, Option.some.injEq] at h
    subst h
    exact Or.inl hr
  | cons row rest ih =>
    intro best fin h r hr
    simp only [dedupRowsGo] at h
    split at h
    · exact Option.noConfusion h
    · split at h
      · rcases ih _ _ h r hr with h1 | h1
        · rcases mem_map_snd_dictInsert _ _ _ _ h1 with h2 | h2
          · exact Or.inr (h2 ▸ List.mem_cons_self _ _)
          · exact Or.inl h2
        · exact Or.inr (List.mem_cons_of_mem _ h1)
      · split at h
        · exact Option.noConfusion h
        · split at h
          · rcases ih _ _ h r hr with h1 | h1
            · rcases mem_map_snd_dictInsert _ _ _ _ h1 with h2 | h2
              · exact Or.inr (h2 ▸ List.mem_cons_self _ _)
              · exact Or.inl h2
            · exact Or.inr (List.mem_cons_of_mem _ h1)
          · split at h
            · rcases ih _ _ h r hr with h1 | h1
              · rcases mem_map_snd_dictInsert _ _ _ _ h1 with h2 | h2
                · exact Or.inr (h2 ▸ List.mem_cons_self _ _)
                · exact Or.inl h2
              · exact Or.inr (List.mem_cons_of_mem _ h1)
            · rcases ih _ _ h r hr with h1 | h1
              · exact Or.inl h1
              · exact Or.inr (List.mem_cons_of_mem _ h1)

theorem dedupClaudeGo_mem : ∀ (rows : List RowC) (best : List (String × RowC)),
    ∀ r ∈ (dedupClaudeGo best rows).map Prod.snd, r ∈ best.map Prod.snd ∨ r ∈ rows := by
  intro rows
  induction rows with
  | nil =>
    intro best r hr
    simp only [dedupClaudeGo] at hr
    exact Or.inl hr
  | cons row rest ih =>
    intro best r hr
    simp only [dedupClaudeGo] at hr
    split at hr
    · rcases ih _ r hr with h1 | h1
      · rcases mem_map_snd_dictInsert _ _ _ _ h1 with h2 | h2
        · exact Or.inr (h2 ▸ List.mem_cons_self _ _)
        · exact Or.inl h2
      · exact Or.inr (List.mem_cons_of_mem _ h1)
    · split at hr
      · rcases ih _ r hr with h1 | h1
        · rcases mem_map_snd_dictInsert _ _ _ _ h1 with h2 | h2
          · exact Or.inr (h2 ▸ List.mem_cons_self _ _)
          · exact Or.inl h2
        · exact Or.inr (List.mem_cons_of_mem _ h1)
      · rcases ih _ r hr with h1 | h1
        · exact Or.inl h1
        · exact Or.inr (List.mem_cons_of_mem _ h1)

theorem dedupOpenaiGo_mem : ∀ (rows : List Row3) (best fin : List (String × Row3)),
    dedupOpenaiGo best rows = some fin →
    ∀ r ∈ fin.map Prod.snd, r ∈ best.map Prod.snd ∨ r ∈ rows := by
  intro rows
  induction rows with
  | nil =>
    intro best fin h r hr
    simp only [dedupOpenaiGo, Option.some.injEq] at h
    subst h
    exact Or.inl hr
  | cons row rest ih =>
    intro best fin h r hr
    simp only [dedupOpenaiGo] at h
    split at h
    · exact Option.noConfusion h
    · split at h
      · rcases ih _ _ h r hr with h1 | h1
        · rcases mem_map_snd_dictInsert _ _ _ _ h1 with h2 | h2
          · exact Or.inr (h2 ▸ List.mem_cons_self _ _)
          · exact Or.inl h2
        · exact Or.inr (List.mem_cons_of_mem _ h1)
      · split at h
        · exact Option.noConfusion h
        · split at h
          · rcases ih _ _ h r hr with h1 | h1
            · rcases mem_map_snd_dictInsert _ _ _ _ h1 with h2 | h2
              · exact Or.inr (h2 ▸ List.mem_cons_self _ _)
              · exact Or.inl h2
            · exact Or.inr (List.mem_cons_of_mem _ h1)
          · rcases ih _ _ h r hr with h1 | h1
            · exact Or.inl h1
            · exact Or.inr (List.mem_cons_of_mem _ h1)

/-- C10: each record a deduplicator outputs is, field for field, one of the
input rows — the winner is kept as-is and fields are never merged across
rows.  Holds for all three variants. -/
theorem c10_dedup_no_merge :
    (∀ (rows out : List Row4) (r : Row4),
      deduplicate_rows rows = some out → r ∈ out → r ∈ rows) ∧
    (∀ (rows : List RowC) (r : RowC), r ∈ deduplicate_deprecations rows → r ∈ rows) ∧
    (∀ (rows out : List Row3) (r : Row3),
      deduplicate_by_earliest_retirement rows = some out → r ∈ out → r ∈ rows) := by
  refine ⟨?_, ?_, ?_⟩
  · intro rows out r h hr
    rcases Option.map_eq_some'.1 h with ⟨fin, hfin, hout⟩
    subst hout
    rcases dedupRowsGo_mem rows [] fin hfin r hr with h1 | h1
    · simp at h1
    · exact h1
  · intro rows r h
    rcases dedupClaudeGo_mem rows [] r h with h1 | h1
    · simp at h1
    · exact h1
  · intro rows out r h hr
    rcases Option.map_eq_some'.1 h with ⟨fin, hfin, hout⟩
    subst hout
    rcases dedupOpenaiGo_mem rows [] fin hfin r hr with h1 | h1
    · simp at h1
    · exact h1

def exRowC : RowC :=
  { retirement_date := "2026-01-01", deprecated_model_name := "m",
    recommended_replacement := "" }

def exRow3 : Row3 :=
  { model_name := "m", retirement_date := "2026-01-01",
    recommended_replacement := "" }

/-- C10 witness: the theorem applied to concrete one-row inputs. -/
theorem c10_dedup_no_merge_witness :
    (deduplicate_rows [exOld] = some [exOld] ∧ exOld ∈ [exOld]) ∧
    (exRowC ∈ deduplicate_deprecations [exRowC] ∧ exRowC ∈ [exRowC]) ∧
    (deduplicate_by_earliest_retirement [exRow3] = some [exRow3] ∧ exRow3 ∈ [exRow3]) := by
  refine ⟨⟨by decide, ?_⟩, ⟨by decide, ?_⟩, ⟨by decide, ?_⟩⟩
  · exact c10_dedup_no_merge.1 [exOld] [exOld] exOld (by decide) (by decide)
  · exact c10_dedup_no_merge.2.1 [exRowC] exRowC (by decide)
  · exact c10_dedup_no_merge.2.2 [exRow3] [exRow3] exRow3 (by decide) (by decide)

/-! ### C6: snapshot persistence round trip -/

theorem list_map_id_of_mem {A : Type} (l : List A) (f : A → A) (h : ∀ a ∈ l, f a = a) :
    l.map f = l := by
  induction l with
  | nil => rfl
  | cons a l ih =>
    simp only [List.map_cons]
    rw [h a (List.mem_cons_self _ _), ih (fun b hb => h b (List.mem_cons_of_mem _ hb))]

theorem splitBars_barfree_append (p : List Char) (hp : ∀ c ∈ p, c ≠ '|') :
    ∀ (acc rest : List Char), splitBars acc (p ++ rest) = splitBars (p.reverse ++ acc) rest := by
  induction p with
  | nil => intro acc rest; simp
  | cons c p' ih =>
    intro acc rest
    have hc : c ≠ '|' := hp c (List.mem_cons_self _ _)
    have hp' : ∀ x ∈ p', x ≠ '|' := fun x hx => hp x (List.mem_cons_of_mem _ hx)
    cases hpr : p' ++ rest with
    | nil =>
      rcases List.append_eq_nil.1 hpr with ⟨hp0, hr0⟩
      subst hp0
      subst hr0
      simp [splitBars]
    | cons c2 tail =>
      rw [List.cons_append, hpr]
      simp only [splitBars]
      rw [if_neg (fun hand => hc hand.1)]
      rw [← hpr, ih hp' (c :: acc) rest]
      simp [List.append_assoc]

theorem splitBars_joinBars : ∀ (parts : List (List Char)), parts ≠ [] →
    (∀ p ∈ parts, ∀ c ∈ p, c ≠ '|') → splitBars [] (joinBars parts) = parts := by
  intro parts
  induction parts with
  | nil => intro h; exact absurd rfl h
  | cons p rest ih =>
    intro _ hbf
    have hbp : ∀ c ∈ p, c ≠ '|' := hbf p (List.mem_cons_self _ _)
    cases rest with
    | nil =>
      show splitBars [] (joinBars [p]) = [p]
      have h1 : joinBars [p] = p ++ [] := by simp [joinBars]
      rw [h1, splitBars_barfree_append p hbp [] []]
      simp [splitBars]
    | cons q rest2 =>
      show splitBars [] (joinBars (p :: q :: rest2)) = p :: q :: rest2
      have h1 : joinBars (p :: q :: rest2) = p ++ '|' :: '|' :: joinBars (q :: rest2) := by
        simp [joinBars]
      rw [h1, splitBars_barfree_append p hbp [] ('|' :: '|' :: joinBars (q :: rest2))]
      simp only [splitBars]
      rw [if_pos (And.intro trivial trivial)]
      rw [ih (by simp) (fun x hx => hbf x (List.mem_cons_of_mem _ hx))]
      simp

theorem splitKey_joinKey (k : List String) (hne : k ≠ [])
    (hbf : ∀ comp ∈ k, ∀ c ∈ comp.data, c ≠ '|') : splitKey (joinKey k) = k := by
  show (splitBars [] (String.mk (joinBars (k.map String.data))).data).map String.mk = k
  have hdata : (String.mk (joinBars (k.map String.data))).data = joinBars (k.map String.data) := rfl
  rw [hdata]
  rw [splitBars_joinBars (k.map String.data) (by simpa using hne)
    (fun p hp => by
      rcases List.mem_map.1 hp with ⟨comp, hcomp, hpc⟩
      exact hpc ▸ hbf comp hcomp)]
  rw [List.map_map]
  exact list_map_id_of_mem _ _ (fun s _ => string_mk_data s)

theorem foldl_dictInsert_map_eq {K V W : Type} [DecidableEq K] (f : W → K × V) :
    ∀ (l : List W) (start : List (K × V)), ((start ++ l.map f).map Prod.fst).Nodup →
      l.foldl (fun acc w => dictInsert (f w).1 (f w).2 acc) start = start ++ l.map f := by
  intro l
  induction l with
  | nil => intro start h; simp
  | cons w rest ih =>
    intro start h
    have hk : (f w).1 ∉ start.map Prod.fst := by
      simp only [List.map_cons, List.map_append, List.map_cons] at h
      rcases List.nodup_append.1 h with ⟨_, _, hdisj⟩
      intro hmem
      exact hdisj hmem (List.mem_cons_self _ _)
    simp only [List.foldl_cons]
    rw [dictInsert_of_not_mem _ _ _ hk]
    have h2 : (((start ++ [f w]) ++ rest.map f).map Prod.fst).Nodup := by
      rw [List.append_assoc]
      simpa using h
    rw [ih (start ++ [f w]) h2]
    simp

def exMs : MsRow :=
  { type := "Text", model := "gpt-4", version := "0613", lifecycle_status := "GA",
    deprecation_date := "", retirement_date := "2026-01-01", replacement_model := "" }

/-- C6, counterexample: the key `("x|", "|y", "c")` has the separator `||`
in none of its components, yet adjacent single bars of different components
fuse into separators when flattened, so the round trip returns a different
key with a different arity. -/
theorem c6_counterexample :
    splitKey "x|" = ["x|"] ∧ splitKey "|y" = ["|y"] ∧ splitKey "c" = ["c"] ∧
    load_snapshot (save_snapshot [(["x|", "|y", "c"], exMs)]) =
      [(["x", "", "y", "c"], exMs)] ∧
    (["x", "", "y", "c"] : List String) ≠ ["x|", "|y", "c"] := by
  exact ⟨by decide, by decide, by decide, by decide, by decide⟩

/-- C6 (amended): `save` followed by `load` reproduces the mapping exactly
for every snapshot whose keys are nonempty tuples of components free of the
bar character (and, as in any `dict`, pairwise distinct). -/
theorem c6_snapshot_roundtrip (X : List (List String × MsRow))
    (hwf : ∀ kv ∈ X, kv.1 ≠ [] ∧ ∀ comp ∈ kv.1, ∀ c ∈ comp.data, c ≠ '|')
    (hnd : (X.map Prod.fst).Nodup) :
    load_snapshot (save_snapshot X) = X := by
  have hjk : ∀ kv ∈ X, splitKey (joinKey kv.1) = kv.1 := fun kv hkv =>
    splitKey_joinKey _ (hwf kv hkv).1 (hwf kv hkv).2
  have hnd2 : ((X.map fun kv => (joinKey kv.1, kv.2)).map Prod.fst).Nodup := by
    have e : (X.map fun kv => (joinKey kv.1, kv.2)).map Prod.fst =
        (X.map Prod.fst).map joinKey := by
      rw [List.map_map, List.map_map]
      rfl
    rw [e]
    refine List.Nodup.map_on ?_ hnd
    intro k1 hk1 k2 hk2 heq
    rcases List.mem_map.1 hk1 with ⟨kv1, hkv1, hfst1⟩
    rcases List.mem_map.1 hk2 with ⟨kv2, hkv2, hfst2⟩
    have e1 : splitKey (joinKey k1) = k1 := hfst1 ▸ hjk kv1 hkv1
    have e2 : splitKey (joinKey k2) = k2 := hfst2 ▸ hjk kv2 hkv2
    rw [← e1, ← e2, heq]
  have hsave : save_snapshot X = X.map fun kv => (joinKey kv.1, kv.2) := by
    have h0 := foldl_dictInsert_map_eq (fun kv : List String × MsRow => (joinKey kv.1, kv.2))
      X [] (by simpa using hnd2)
    simpa [save_snapshot] using h0
  rw [hsave]
  have hmapmap : ((X.map fun kv => (joinKey kv.1, kv.2)).map
      fun kv => (splitKey kv.1, kv.2)) = X := by
    rw [List.map_map]
    apply list_map_id_of_mem
    intro kv hkv
    show (splitKey (joinKey kv.1), kv.2) = kv
    rw [hjk kv hkv]
  have hnd3 : (((X.map fun kv => (joinKey kv.1, kv.2)).map
      fun kv => (splitKey kv.1, kv.2)).map Prod.fst).Nodup := by
    rw [hmapmap]
    exact hnd
  have hload := foldl_dictInsert_map_eq (fun kv : String × MsRow => (splitKey kv.1, kv.2))
    (X.map fun kv => (joinKey kv.1, kv.2)) [] (by simpa using hnd3)
  have hl2 : load_snapshot (X.map fun kv => (joinKey kv.1, kv.2)) =
      ((X.map fun kv => (joinKey kv.1, kv.2)).map fun kv => (splitKey kv.1, kv.2)) := by
    simpa [load_snapshot] using hload
  rw [hl2, hmapmap]

/-- C6 witness: the round trip on a concrete one-entry snapshot with a
well-formed key. -/
theorem c6_snapshot_roundtrip_witness :
    load_snapshot (save_snapshot [(["Text", "gpt-4", "0613"], exMs)]) =
      [(["Text", "gpt-4", "0613"], exMs)] := by
  exact c6_snapshot_roundtrip _ (by decide) (by decide)

/-! ### C7: `Updated` events and their changed-field sets -/

/-- Does this change record concern identity `k`?  (The baseline record has
no identity.) -/
def isChangeFor (k : List String) : MsChange → Bool
  | .cnew k1 _ => decide (k1 = k)
  | .update k1 _ _ _ => decide (k1 = k)
  | .baseline => false

/-- The change records emitted for identity `k`. -/
def changesFor (k : List String) (changes : List MsChange) : List MsChange :=
  changes.filter (isChangeFor k)

theorem isChangeFor_changeForRow (old : List (List String × MsRow)) (row : MsRow)
    (k : List String) (ch : MsChange) (h : changeForRow old row = some ch) :
    isChangeFor k ch = decide (key_for_row row = k) := by
  simp only [changeForRow] at h
  split at h
  · cases h
    rfl
  · split at h
    · exact Option.noConfusion h
    · cases h
      rfl

theorem changesFor_filterMap_nil (old : List (List String × MsRow)) (k : List String) :
    ∀ rows : List MsRow, (∀ row ∈ rows, key_for_row row ≠ k) →
      changesFor k (rows.filterMap (changeForRow old)) = [] := by
  intro rows
  induction rows with
  | nil => intro _; rfl
  | cons r rest ih =>
    intro hner
    simp only [List.filterMap_cons]
    cases hc : changeForRow old r with
    | none => exact ih fun row hrow => hner row (List.mem_cons_of_mem _ hrow)
    | some ch =>
      simp only [changesFor, List.filter_cons]
      rw [isChangeFor_changeForRow old r k ch hc]
      rw [decide_eq_false (hner r (List.mem_cons_self _ _))]
      exact ih fun row hrow => hner row (List.mem_cons_of_mem _ hrow)

theorem changesFor_filterMap (old : List (List String × MsRow)) :
    ∀ (rows : List MsRow), (rows.map key_for_row).Nodup →
      ∀ row ∈ rows,
        changesFor (key_for_row row) (rows.filterMap (changeForRow old)) =
          (match changeForRow old row with
           | none => []
           | some ch => [ch]) := by
  intro rows
  induction rows with
  | nil => intro _ row hrow; simp at hrow
  | cons r rest ih =>
    intro hnd row hrow
    simp only [List.map_cons, List.nodup_cons] at hnd
    rcases List.mem_cons.1 hrow with hrr | hrr
    · subst hrr
      simp only [List.filterMap_cons]
      have hrest : ∀ r2 ∈ rest, key_for_row r2 ≠ key_for_row row := by
        intro r2 hr2 heq
        exact hnd.1 (heq ▸ List.mem_map.2 ⟨r2, hr2, rfl⟩)
      cases hc : changeForRow old row with
      | none => exact changesFor_filterMap_nil old _ rest hrest
      | some ch =>
        simp only [changesFor, List.filter_cons]
        rw [isChangeFor_changeForRow old row _ ch hc, decide_eq_true rfl]
        have h0 := changesFor_filterMap_nil old (key_for_row row) rest hrest
        simp only [changesFor] at h0
        rw [h0]
        simp
    · have hner : key_for_row r ≠ key_for_row row := by
        intro heq
        exact hnd.1 (heq.symm ▸ List.mem_map.2 ⟨row, hrr, rfl⟩)
      simp only [List.filterMap_cons]
      cases hc : changeForRow old r with
      | none => exact ih hnd.2 row hrr
      | some ch =>
        simp only [changesFor, List.filter_cons]
        rw [isChangeFor_changeForRow old r _ ch hc, decide_eq_false hner]
        exact ih hnd.2 row hrr

theorem mem_msDiffs (o n : MsRow) (f a b : String) :
    (f, a, b) ∈ msDiffs o n ↔
      f ∈ comparableFields ∧ rowGet o f ≠ rowGet n f ∧
        a = rowGet o f ∧ b = rowGet n f := by
  constructor
  · intro h
    rcases List.mem_filterMap.1 h with ⟨x, hx, hif⟩
    by_cases hd : rowGet o x ≠ rowGet n x
    · rw [if_pos hd] at hif
      cases hif
      exact ⟨hx, hd, rfl, rfl⟩
    · rw [if_neg hd] at hif
      exact Option.noConfusion hif
  · rintro ⟨hf, hdiff, ha, hb⟩
    refine List.mem_filterMap.2 ⟨f, hf, ?_⟩
    rw [if_pos hdiff, ha, hb]

/-- C7, counterexample: the unified `diff_rows` "event" for a changed record
is the bare new row; two prior snapshots with different old values of the
changed field produce identical output, so the emitted change cannot carry
the (old value, new value) pairs the claim requires. -/
theorem c7_counterexample :
    diff_rows [exNew] (load_existing_csv [exOld]) = [exNew] ∧
    diff_rows [exNew]
      (load_existing_csv [{ exOld with retirement_date := "2025-12-31" }]) = [exNew] ∧
    exOld.retirement_date ≠ "2025-12-31" := by
  exact ⟨by decide, by decide, by decide⟩

/-- C7 (amended): in the Microsoft variant, for an identity present in both
the prior snapshot and the (duplicate-free) new row set, exactly one
`update` record is emitted precisely when some comparable field differs, it
carries the complete changed-field mapping, and an identity with all
comparable fields equal gets no record at all; the changed-field mapping
holds exactly the differing comparable fields with their (old, new)
values. -/
theorem c7_updated_events_full_diffs (old : List (List String × MsRow)) (rows : List MsRow)
    (hnd : (rows.map key_for_row).Nodup) (row orow : MsRow) (hmem : row ∈ rows)
    (hold : dictGet? (key_for_row row) old = some orow) :
    changesFor (key_for_row row) (compare_snapshots old rows).1 =
      (if msDiffs orow row = [] then []
       else [MsChange.update (key_for_row row) orow row (msDiffs orow row)]) ∧
    ∀ f a b : String, ((f, a, b) ∈ msDiffs orow row ↔
      f ∈ comparableFields ∧ rowGet orow f ≠ rowGet row f ∧
        a = rowGet orow f ∧ b = rowGet row f) := by
  constructor
  · have h0 := changesFor_filterMap old rows hnd row hmem
    have hc : changeForRow old row =
        (if msDiffs orow row = [] then none
         else some (MsChange.update (key_for_row row) orow row (msDiffs orow row))) := by
      rw [changeForRow, hold]
    show changesFor (key_for_row row) (rows.filterMap (changeForRow old)) = _
    rw [h0, hc]
    by_cases hd : msDiffs orow row = []
    · rw [if_pos hd, if_pos hd]
    · rw [if_neg hd, if_neg hd]
  · exact mem_msDiffs orow row

def exMs2 : MsRow := { exMs with retirement_date := "2026-02-01" }

/-- C7 witness: one changed retirement date yields exactly one update record
carrying exactly that field. -/
theorem c7_updated_events_witness :
    (([exMs2].map key_for_row).Nodup ∧
      dictGet? (key_for_row exMs2) [(["Text", "gpt-4", "0613"], exMs)] = some exMs ∧
      exMs2 ∈ [exMs2]) ∧
    (changesFor (key_for_row exMs2)
        (compare_snapshots [(["Text", "gpt-4", "0613"], exMs)] [exMs2]).1 =
      (if msDiffs exMs exMs2 = [] then []
       else [MsChange.update (key_for_row exMs2) exMs exMs2 (msDiffs exMs exMs2)]) ∧
    ∀ f a b : String, ((f, a, b) ∈ msDiffs exMs exMs2 ↔
      f ∈ comparableFields ∧ rowGet exMs f ≠ rowGet exMs2 f ∧
        a = rowGet exMs f ∧ b = rowGet exMs2 f)) := by
  refine ⟨⟨by decide, by decide, by decide⟩, ?_⟩
  exact c7_updated_events_full_diffs [(["Text", "gpt-4", "0613"], exMs)] [exMs2]
    (by decide) exMs2 exMs (by decide) (by decide)

/-! ### C3: the deduplication preference order -/

/-- The date of a row as compared inside `deduplicate_rows` (rows reaching a
comparison always parse, so the default is irrelevant there). -/
def rowDate (r : Row4) : Nat := (parseDateYmd r.retirement_date).getD 0

/-- One comparison step of the `deduplicate_rows` loop: the later row wins
on a strictly earlier date, or on an equal date when it has a replacement
and the current winner does not. -/
def dedupStep (cur row : Row4) : Row4 :=
  if rowDate row < rowDate cur then row
  else if rowDate row = rowDate cur ∧ row.recommended_replacement ≠ "" ∧
      cur.recommended_replacement = "" then row
  else cur

/-- The per-key state of the loop after one group of rows. -/
def mergeOpt (o : Option Row4) (g : List Row4) : Option Row4 :=
  match o with
  | some c => some (g.foldl dedupStep c)
  | none =>
    match g with
    | [] => none
    | r :: rest => some (rest.foldl dedupStep r)

/-- Earliest date within one identity group (head and tail). -/
def groupMinDate (h1 : Row4) (t : List Row4) : Nat :=
  t.foldl (fun a r => min a (rowDate r)) (rowDate h1)

/-- The rows of the group that attain the earliest date. -/
def minsOf (h1 : Row4) (t : List Row4) : List Row4 :=
  (h1 :: t).filter fun r => decide (rowDate r = groupMinDate h1 t)

/-- Specification-side selector, following the spec's preference order:
earliest `retirement_date` wins; on a tie the first row carrying a
non-empty `recommended_replacement` wins; remaining ties keep the
first-seen row. -/
def specSelect (h1 : Row4) (t : List Row4) : Row4 :=
  match (minsOf h1 t).find? (fun r => decide (r.recommended_replacement ≠ "")) with
  | some w => w
  | none => (minsOf h1 t).headD h1

theorem groupMinDate_eq_foldl (h1 : Row4) (t : List Row4) :
    groupMinDate h1 t = (t.map rowDate).foldl min (rowDate h1) := by
  rw [groupMinDate, List.foldl_map]

theorem groupMinDate_le (h1 : Row4) (t : List Row4) :
    ∀ x ∈ h1 :: t, groupMinDate h1 t ≤ rowDate x := by
  intro x hx
  rw [groupMinDate_eq_foldl]
  rcases List.mem_cons.1 hx with hx | hx
  · subst hx
    exact foldl_min_le_init _ _
  · exact foldl_min_le_mem _ _ _ (List.mem_map.2 ⟨x, hx, rfl⟩)

theorem groupMinDate_attained (h1 : Row4) (t : List Row4) :
    ∃ x ∈ h1 :: t, rowDate x = groupMinDate h1 t := by
  rcases foldl_min_mem (t.map rowDate) (rowDate h1) with h | h
  · exact ⟨h1, List.mem_cons_self _ _, by rw [groupMinDate_eq_foldl, h]⟩
  · rcases List.mem_map.1 h with ⟨x, hx, hrx⟩
    exact ⟨x, List.mem_cons_of_mem _ hx, by rw [groupMinDate_eq_foldl, hrx]⟩

theorem minsOf_ne_nil (h1 : Row4) (t : List Row4) : minsOf h1 t ≠ [] := by
  intro hnil
  rcases groupMinDate_attained h1 t with ⟨x, hx, hdx⟩
  have hmem : x ∈ minsOf h1 t := List.mem_filter.2 ⟨hx, by simp [hdx]⟩
  rw [hnil] at hmem
  simp at hmem

theorem mem_minsOf {h1 x : Row4} {t : List Row4} :
    x ∈ minsOf h1 t ↔ x ∈ h1 :: t ∧ rowDate x = groupMinDate h1 t := by
  simp [minsOf, List.mem_filter]

theorem specSelect_mem_mins (h1 : Row4) (t : List Row4) :
    specSelect h1 t ∈ minsOf h1 t := by
  rw [specSelect]
  cases hf : (minsOf h1 t).find? (fun r => decide (r.recommended_replacement ≠ "")) with
  | some w =>
    exact List.mem_of_find?_eq_some hf
  | none =>
    cases hm : minsOf h1 t with
    | nil => exact absurd hm (minsOf_ne_nil h1 t)
    | cons m ms => simp

theorem specSelect_date (h1 : Row4) (t : List Row4) :
    rowDate (specSelect h1 t) = groupMinDate h1 t :=
  (mem_minsOf.1 (specSelect_mem_mins h1 t)).2

theorem foldl_dedupStep_spec : ∀ (t : List Row4) (h1 : Row4),
    t.foldl dedupStep h1 = specSelect h1 t := by
  intro t
  induction t using List.reverseRecOn with
  | nil =>
    intro h1
    have hm : minsOf h1 [] = [h1] := by
      simp [minsOf, groupMinDate]
    rw [List.foldl_nil, specSelect, hm]
    cases hfind : [h1].find? (fun r => decide (r.recommended_replacement ≠ "")) with
    | some w =>
      have hw := List.mem_of_find?_eq_some hfind
      simp at hw
      simp [hfind, hw]
    | none => simp [hfind]
  | append_singleton t r ih =>
    intro h1
    rw [List.foldl_append, List.foldl_cons, List.foldl_nil, ih h1]
    have hd : groupMinDate h1 (t ++ [r]) = min (groupMinDate h1 t) (rowDate r) := by
      rw [groupMinDate, List.foldl_append]
      rfl
    have hmins_app : minsOf h1 (t ++ [r]) =
        ((h1 :: t).filter fun x => decide (rowDate x = groupMinDate h1 (t ++ [r]))) ++
        ([r].filter fun x => decide (rowDate x = groupMinDate h1 (t ++ [r]))) := by
      rw [minsOf, ← List.cons_append, List.filter_append]
    rcases Nat.lt_trichotomy (rowDate r) (groupMinDate h1 t) with hlt | heq | hgt
    · -- the appended row has a strictly earlier date: it becomes the winner
      have hdnew : groupMinDate h1 (t ++ [r]) = rowDate r := by
        rw [hd, min_eq_right (Nat.le_of_lt hlt)]
      have hfilter1 : (h1 :: t).filter
          (fun x => decide (rowDate x = groupMinDate h1 (t ++ [r]))) = [] := by
        rw [List.filter_eq_nil_iff]
        intro x hx
        simp only [decide_eq_true_eq, hdnew]
        have := groupMinDate_le h1 t x hx
        omega
      have hfilter2 : [r].filter
          (fun x => decide (rowDate x = groupMinDate h1 (t ++ [r]))) = [r] := by
        simp [hdnew]
      have hminsnew : minsOf h1 (t ++ [r]) = [r] := by
        rw [hmins_app, hfilter1, hfilter2]
        rfl
      have hspec : specSelect h1 (t ++ [r]) = r := by
        rw [specSelect, hminsnew]
        cases hfind : [r].find? (fun x => decide (x.recommended_replacement ≠ "")) with
        | some w =>
          have hw := List.mem_of_find?_eq_some hfind
          simp at hw
          simp [hfind, hw]
        | none => simp [hfind]
      rw [hspec, dedupStep, if_pos]
      rw [specSelect_date]
      exact hlt
    · -- equal dates: replacement preference decides, else the old winner stays
      have hdnew : groupMinDate h1 (t ++ [r]) = groupMinDate h1 t := by
        rw [hd, heq, min_self]
      have hfilter1 : (h1 :: t).filter
          (fun x => decide (rowDate x = groupMinDate h1 (t ++ [r]))) = minsOf h1 t := by
        rw [minsOf]
        simp only [hdnew]
      have hfilter2 : [r].filter
          (fun x => decide (rowDate x = groupMinDate h1 (t ++ [r]))) = [r] := by
        simp [hdnew, heq]
      have hminsnew : minsOf h1 (t ++ [r]) = minsOf h1 t ++ [r] := by
        rw [hmins_app, hfilter1, hfilter2]
      cases hfind : (minsOf h1 t).find?
          (fun r => decide (r.recommended_replacement ≠ "")) with
      | some w =>
        have happ : (minsOf h1 (t ++ [r])).find?
            (fun r => decide (r.recommended_replacement ≠ "")) = some w := by
          rw [hminsnew, List.find?_append, hfind]
          rfl
        have hspec : specSelect h1 (t ++ [r]) = w := by
          rw [specSelect, happ]
        have hb : specSelect h1 t = w := by
          rw [specSelect, hfind]
        have hw_repl : w.recommended_replacement ≠ "" := by
          have := List.find?_some hfind
          simpa using this
        have hw_date : rowDate w = groupMinDate h1 t := by
          rw [← hb]
          exact specSelect_date h1 t
        rw [hspec, hb, dedupStep, if_neg (by rw [hw_date]; omega),
          if_neg (fun hand => hw_repl hand.2.2)]
      | none =>
        have hb : specSelect h1 t = (minsOf h1 t).headD h1 := by
          rw [specSelect, hfind]
        have hbmem : specSelect h1 t ∈ minsOf h1 t := specSelect_mem_mins h1 t
        have hbrepl : (specSelect h1 t).recommended_replacement = "" := by
          have := List.find?_eq_none.1 hfind _ hbmem
          simpa using this
        by_cases hr : r.recommended_replacement ≠ ""
        · have happ : (minsOf h1 (t ++ [r])).find?
              (fun x => decide (x.recommended_replacement ≠ "")) = some r := by
            rw [hminsnew, List.find?_append, hfind]
            simp [hr]
          have hspec : specSelect h1 (t ++ [r]) = r := by
            rw [specSelect, happ]
          rw [hspec, dedupStep,
            if_neg (by rw [specSelect_date]; omega),
            if_pos ⟨by rw [specSelect_date]; exact heq, hr, hbrepl⟩]
        · have hfr : [r].find? (fun x => decide (x.recommended_replacement ≠ "")) = none := by
            simp only [ne_eq, Decidable.not_not] at hr
            simp [hr]
          have happ : (minsOf h1 (t ++ [r])).find?
              (fun x => decide (x.recommended_replacement ≠ "")) = none := by
            rw [hminsnew, List.find?_append, hfind, hfr]
            rfl
          have hh : (minsOf h1 t ++ [r]).headD h1 = (minsOf h1 t).headD h1 := by
            cases hmm : minsOf h1 t with
            | nil => exact absurd hmm (minsOf_ne_nil h1 t)
            | cons m ms => simp
          have hspec : specSelect h1 (t ++ [r]) = specSelect h1 t := by
            rw [specSelect, happ, hminsnew, hh, ← hb]
          rw [hspec, dedupStep,
            if_neg (by rw [specSelect_date]; omega),
            if_neg (fun hand => hr hand.2.1)]
    · -- the appended row has a strictly later date: nothing changes
      have hdnew : groupMinDate h1 (t ++ [r]) = groupMinDate h1 t := by
        rw [hd, min_eq_left (Nat.le_of_lt hgt)]
      have hfilter1 : (h1 :: t).filter
          (fun x => decide (rowDate x = groupMinDate h1 (t ++ [r]))) = minsOf h1 t := by
        rw [minsOf]
        simp only [hdnew]
      have hfilter2 : [r].filter
          (fun x => decide (rowDate x = groupMinDate h1 (t ++ [r]))) = [] := by
        simp only [List.filter_eq_nil_iff]
        intro x hx
        simp only [List.mem_singleton] at hx
        subst hx
        simp only [decide_eq_true_eq, hdnew]
        omega
      have hminsnew : minsOf h1 (t ++ [r]) = minsOf h1 t := by
        rw [hmins_app, hfilter1, hfilter2, List.append_nil]
      have hspec : specSelect h1 (t ++ [r]) = specSelect h1 t := by
        rw [specSelect, hminsnew, specSelect]
      rw [hspec, dedupStep,
        if_neg (by rw [specSelect_date]; omega),
        if_neg (fun hand => by rw [specSelect_date] at hand; omega)]

theorem dedupRowsGo_keys_sound : ∀ (rows : List Row4) (best fin : List (String × Row4)),
    (∀ kv ∈ best, kv.2.model_name = kv.1) → dedupRowsGo best rows = some fin →
    ∀ kv ∈ fin, kv.2.model_name = kv.1 := by
  intro rows
  induction rows with
  | nil =>
    intro best fin hb h
    simp only [dedupRowsGo, Option.some.injEq] at h
    subst h
    exact hb
  | cons row rest ih =>
    intro best fin hb h
    have hins : ∀ kv ∈ dictInsert row.model_name row best, kv.2.model_name = kv.1 := by
      intro kv hkv
      rcases mem_dictInsert _ _ _ kv hkv with h1 | h1
      · rw [h1]
      · exact hb kv h1
    simp only [dedupRowsGo] at h
    split at h
    · exact Option.noConfusion h
    · split at h
      · exact ih _ _ hins h
      · split at h
        · exact Option.noConfusion h
        · split at h
          · exact ih _ _ hins h
          · split at h
            · exact ih _ _ hins h
            · exact ih _ _ hb h

theorem dedupRowsGo_nodup : ∀ (rows : List Row4) (best fin : List (String × Row4)),
    (best.map Prod.fst).Nodup → dedupRowsGo best rows = some fin →
    (fin.map Prod.fst).Nodup := by
  intro rows
  induction rows with
  | nil =>
    intro best fin hb h
    simp only [dedupRowsGo, Option.some.injEq] at h
    subst h
    exact hb
  | cons row rest ih =>
    intro best fin hb h
    have hins := keys_dictInsert_nodup row.model_name row best hb
    simp only [dedupRowsGo] at h
    split at h
    · exact Option.noConfusion h
    · split at h
      · exact ih _ _ hins h
      · split at h
        · exact Option.noConfusion h
        · split at h
          · exact ih _ _ hins h
          · split at h
            · exact ih _ _ hins h
            · exact ih _ _ hb h

theorem dedupRowsGo_get : ∀ (rows : List Row4) (best fin : List (String × Row4)),
    dedupRowsGo best rows = some fin → ∀ k : String,
    dictGet? k fin = mergeOpt (dictGet? k best)
      (rows.filter fun r => decide (r.model_name = k)) := by
  intro rows
  induction rows with
  | nil =>
    intro best fin h k
    simp only [dedupRowsGo, Option.some.injEq] at h
    subst h
    simp only [List.filter_nil]
    cases hg : dictGet? k best with
    | none => rfl
    | some c => rfl
  | cons row rest ih =>
    intro best fin h k
    simp only [dedupRowsGo] at h
    split at h
    · exact Option.noConfusion h
    · rename_i d hpd
      by_cases hk : row.model_name = k
      · -- the head row belongs to the group of `k`
        have hfc : (row :: rest).filter (fun r => decide (r.model_name = k)) =
            row :: rest.filter (fun r => decide (r.model_name = k)) := by
          simp [List.filter_cons, hk]
        rw [hfc]
        have hdate : rowDate row = d := by
          rw [rowDate, hpd]
          rfl
        have hins : dictGet? k (dictInsert row.model_name row best) = some row := by
          rw [← hk]
          exact dictGet?_dictInsert_self _ _ _
        split at h
        · rename_i hg
          rw [hk] at hg
          -- key not present yet: the row is inserted as the group's first
          rw [ih _ _ h k, hins, hg]
          rfl
        · rename_i ex hg
          split at h
          · exact Option.noConfusion h
          · rename_i ed hpe
            have hedate : rowDate ex = ed := by
              rw [rowDate, hpe]
              rfl
            rw [hk] at hg
            split at h
            · rename_i hlt
              -- strictly earlier date: the row replaces the current winner
              rw [ih _ _ h k, hins, hg]
              have hstep : dedupStep ex row = row := by
                rw [dedupStep, if_pos (by rw [hdate, hedate]; exact hlt)]
              simp only [mergeOpt, List.foldl_cons, hstep]
            · split at h
              · rename_i htie
                -- equal date, replacement preference: the row replaces
                rw [ih _ _ h k, hins, hg]
                have hstep : dedupStep ex row = row := by
                  rw [dedupStep, if_neg (by rw [hdate, hedate]; omega),
                    if_pos ⟨by rw [hdate, hedate]; exact htie.1, htie.2.1, htie.2.2⟩]
                simp only [mergeOpt, List.foldl_cons, hstep]
              · rename_i hlt htie
                -- the current winner stays
                rw [ih _ _ h k, hg]
                have hstep : dedupStep ex row = ex := by
                  rw [dedupStep, if_neg (by rw [hdate, hedate]; exact hlt),
                    if_neg (fun hand => htie ⟨by rw [← hdate, ← hedate]; exact hand.1,
                      hand.2.1, hand.2.2⟩)]
                simp only [mergeOpt, List.foldl_cons, hstep]
      · -- the head row belongs to a different group
        have hfc : (row :: rest).filter (fun r => decide (r.model_name = k)) =
            rest.filter (fun r => decide (r.model_name = k)) := by
          simp [List.filter_cons, hk]
        rw [hfc]
        have hne : k ≠ row.model_name := fun he => hk he.symm
        split at h
        · rw [ih _ _ h k, dictGet?_dictInsert_ne _ _ hne]
        · split at h
          · exact Option.noConfusion h
          · split at h
            · rw [ih _ _ h k, dictGet?_dictInsert_ne _ _ hne]
            · split at h
              · rw [ih _ _ h k, dictGet?_dictInsert_ne _ _ hne]
              · rw [ih _ _ h k]

theorem filter_map_snd (l : List (String × Row4)) (hks : ∀ kv ∈ l, kv.2.model_name = kv.1)
    (hnd : (l.map Prod.fst).Nodup) (k : String) :
    (l.map Prod.snd).filter (fun r => decide (r.model_name = k)) =
      (match dictGet? k l with
       | some v => [v]
       | none => []) := by
  induction l with
  | nil => rfl
  | cons kv tl ih =>
    obtain ⟨k1, v1⟩ := kv
    have hv1 : v1.model_name = k1 := hks (k1, v1) (List.mem_cons_self _ _)
    simp only [List.map_cons, List.nodup_cons] at hnd
    have ihtl := ih (fun kv hkv => hks kv (List.mem_cons_of_mem _ hkv)) hnd.2
    by_cases hk1 : k = k1
    · subst hk1
      have hget : dictGet? k ((k, v1) :: tl) = some v1 := by
        rw [dictGet?, if_pos rfl]
      rw [hget]
      simp only [List.map_cons, List.filter_cons]
      rw [decide_eq_true hv1]
      have hrest : (tl.map Prod.snd).filter (fun r => decide (r.model_name = k)) = [] := by
        rw [List.filter_eq_nil_iff]
        intro r hr
        rcases List.mem_map.1 hr with ⟨kv2, hkv2, hr2⟩
        have hr3 : r.model_name = kv2.1 := hr2 ▸ hks kv2 (List.mem_cons_of_mem _ hkv2)
        simp only [decide_eq_true_eq, hr3]
        intro he
        exact hnd.1 (he ▸ List.mem_map.2 ⟨kv2, hkv2, rfl⟩)
      simp [hrest]
    · have hget : dictGet? k ((k1, v1) :: tl) = dictGet? k tl := by
        rw [dictGet?, if_neg hk1]
      rw [hget, ← ihtl]
      simp only [List.map_cons, List.filter_cons]
      rw [decide_eq_false (fun he => hk1 (he.symm.trans hv1))]
      simp

/-- C3, counterexample: the Claude-variant deduplicator never consults the
retirement date: of two replacement-free rows for one model, the later
(2026-03-01) first-seen row is kept although the other row's date is
earlier, contradicting the claimed date-first preference order. -/
theorem c3_counterexample :
    deduplicate_deprecations
      [{ retirement_date := "2026-03-01", deprecated_model_name := "m",
         recommended_replacement := "" },
       { retirement_date := "2026-01-15", deprecated_model_name := "m",
         recommended_replacement := "" }] =
      [{ retirement_date := "2026-03-01", deprecated_model_name := "m",
         recommended_replacement := "" }] ∧
    parseDateYmd "2026-01-15" = some 20260115 ∧
    parseDateYmd "2026-03-01" = some 20260301 ∧
    (20260115 : Nat) < 20260301 := by
  exact ⟨by decide, by decide, by decide, by decide⟩

/-- C3 (amended): the unified `deduplicate_rows` keeps exactly one record
per identity, chosen by the claimed preference order — earliest
`retirement_date`, then the first row with a non-empty
`recommended_replacement` among the earliest-dated ones, then the
first-seen row. -/
theorem c3_preference_order (rows out : List Row4)
    (hdd : deduplicate_rows rows = some out) (k : String) :
    out.filter (fun r => decide (r.model_name = k)) =
      (match rows.filter (fun r => decide (r.model_name = k)) with
       | [] => []
       | g :: gs => [specSelect g gs]) := by
  rcases Option.map_eq_some'.1 hdd with ⟨fin, hfin, hout⟩
  subst hout
  have hkeys : ∀ kv ∈ fin, kv.2.model_name = kv.1 :=
    dedupRowsGo_keys_sound rows [] fin (by simp) hfin
  have hnd : (fin.map Prod.fst).Nodup := dedupRowsGo_nodup rows [] fin (by simp) hfin
  rw [filter_map_snd fin hkeys hnd k, dedupRowsGo_get rows [] fin hfin k]
  cases hgrp : rows.filter (fun r => decide (r.model_name = k)) with
  | nil => rfl
  | cons g gs =>
    show (match mergeOpt (dictGet? k []) (g :: gs) with
          | some v => [v]
          | none => []) = [specSelect g gs]
    simp only [dictGet?, mergeOpt]
    rw [foldl_dedupStep_spec]

/-- A later-dated replacement-free row for model `m`. -/
def c3wA : Row4 :=
  { source := "s", model_name := "m", retirement_date := "2026-03-01",
    recommended_replacement := "" }

/-- An earlier-dated row for model `m` carrying a replacement. -/
def c3wB : Row4 :=
  { source := "s", model_name := "m", retirement_date := "2026-01-15",
    recommended_replacement := "claude-4" }

/-- C3 witness: of two rows for one model, the earlier-dated one with a
replacement wins, exactly as the spec selector picks it. -/
theorem c3_preference_order_witness :
    deduplicate_rows [c3wA, c3wB] = some [c3wB] ∧
    ([c3wB].filter (fun r => decide (r.model_name = "m")) =
      (match [c3wA, c3wB].filter (fun r => decide (r.model_name = "m")) with
       | [] => []
       | g :: gs => [specSelect g gs])) := by
  refine ⟨by decide, ?_⟩
  exact c3_preference_order [c3wA, c3wB] [c3wB] (by decide) "m"
